import Mathlib

/-!
Verification of the JSON-RPC transport core of `a-h/examplelsp`
(`src/protocol/rpc.go`), as a shallow embedding.

Modelling conventions:
* JSON values are the inductive `Json` below (mutual with `JsonList` and
  `JsonFields` so that structural induction is available).
* Go's `*json.RawMessage` pointers become `Option Json` (a `nil` pointer is
  `none`); Go's `any` payloads become `Json` (`nil` is `Json.null`).
* Go's `error` interface values become `Option GoErr` (`none` is the nil
  interface); calling a method on the nil interface is a panic, modelled by
  `Except.error ()`.
* The byte stream is a `List Char`.
-/

namespace JsonRpc

mutual
inductive Json where
  | null : Json
  | bool (b : Bool) : Json
  | num (n : Int) : Json
  | str (s : String) : Json
  | arr (elems : JsonList) : Json
  | obj (fields : JsonFields) : Json

inductive JsonList where
  | nil : JsonList
  | cons (head : Json) (tail : JsonList) : JsonList

inductive JsonFields where
  | nil : JsonFields
  | cons (key : String) (value : Json) (tail : JsonFields) : JsonFields
end

/-- The `Error` struct of rpc.go: `Code int64`, `Message string`, `Data any`
(`Data` is `Json.null` when the Go field is nil). -/
structure Error where
  code : Int
  message : String
  data : Json

/-- A non-nil Go `error` value flowing through the transport: either a
`*protocol.Error` or any other implementation of the `error` interface,
of which only the `Error()` message text is observable. -/
inductive GoErr where
  | rpcError (e : Error)
  | plain (message : String)

/-- The `Request` struct of rpc.go. `ID` is `*json.RawMessage` (`none` models
the nil pointer, which `encoding/json` produces both for an absent `id` field
and for a JSON-null `id`); `Params` is a non-pointer `json.RawMessage`
(`none` models the nil slice produced for an absent field). -/
structure Request where
  protocolVersion : String
  id : Option Json
  method : String
  params : Option Json

/-- The `Response` struct of rpc.go. `Result` is `any` (nil marshals as
JSON null, modelled `Json.null`); `Error` is `*Error`. -/
structure Response where
  protocolVersion : String
  id : Option Json
  result : Json
  error : Option Error

def jsonRpcVersion : String := "2.0"

def Request.IsJSONRPC (r : Request) : Bool := r.protocolVersion = jsonRpcVersion

def Request.IsNotification (r : Request) : Bool := r.id.isNone

def Response.IsJSONRPC (r : Response) : Bool := r.protocolVersion = jsonRpcVersion

/-- Function `newError` from rpc.go, transcribed with its actual guard:

    if err != nil { return nil }
    if e, isError := err.(*Error); isError { return e }
    return &Error{Code: 0, Message: err.Error(), Data: nil}

For a non-nil `err` the first guard returns nil.  For a nil `err` the type
assertion on the nil interface fails and `err.Error()` is a method call on a
nil interface, which panics (`Except.error ()`). -/
def newError (err : Option GoErr) : Except Unit (Option Error) :=
  if err.isSome then Except.ok none
  else
    match err with
    | some (GoErr.rpcError e) => Except.ok (some e)
    | some (GoErr.plain m) => Except.ok (some { code := 0, message := m, data := Json.null })
    | none => Except.error ()

/-- Function `NewResponse` from rpc.go. -/
def NewResponse (id : Option Json) (result : Json) : Response :=
  { protocolVersion := jsonRpcVersion, id := id, result := result, error := none }

/-- Function `NewResponseError` from rpc.go (`Result` is nil, i.e. JSON null). -/
def NewResponseError (id : Option Json) (err : Option GoErr) : Except Unit Response :=
  (newError err).map fun e =>
    { protocolVersion := jsonRpcVersion, id := id, result := Json.null, error := e }

def ErrParseError : Error := { code := -32700, message := "Parse error", data := Json.null }
def ErrInvalidRequest : Error := { code := -32600, message := "Invalid Request", data := Json.null }
def ErrMethodNotFound : Error := { code := -32601, message := "Method not found", data := Json.null }
def ErrInvalidParams : Error := { code := -32602, message := "Invalid params", data := Json.null }
def ErrInternal : Error := { code := -32603, message := "Internal error", data := Json.null }
def ErrServerNotInitialized : Error :=
  { code := -32002, message := "Server not initialized", data := Json.null }

/-- Type `MethodHandler`: `func(params json.RawMessage) (result any, err error)`;
a non-nil `err` makes the result irrelevant, so the pair is an `Except`. -/
def MethodHandler : Type := Option Json → Except GoErr Json

/-- Type `NotificationHandler`: `func(params json.RawMessage) (err error)`. -/
def NotificationHandler : Type := Option Json → Option GoErr

/-- The `Transport` struct of rpc.go, restricted to the fields with
protocol-visible behaviour (reader/writer/log/locks are the I/O plumbing). -/
structure Transport where
  initialized : Bool
  concurrencyLimit : Nat
  methodHandlers : String → Option MethodHandler
  notificationHandlers : String → Option NotificationHandler

/-- Function `New` from rpc.go: `initialized` starts at its zero value `false`,
`concurrencyLimit` is 4, both handler maps start empty. -/
def New : Transport :=
  { initialized := false
    concurrencyLimit := 4
    methodHandlers := fun _ => none
    notificationHandlers := fun _ => none }

def Transport.HandleMethod (t : Transport) (name : String) (h : MethodHandler) : Transport :=
  { t with methodHandlers := fun m => if m = name then some h else t.methodHandlers m }

def Transport.HandleNotification (t : Transport) (name : String) (h : NotificationHandler) :
    Transport :=
  { t with notificationHandlers :=
      fun m => if m = name then some h else t.notificationHandlers m }

/-- Function `handleRequestResponse` from rpc.go: unknown method sends a
method-not-found error response; a handler failure sends the failure mapped
through `NewResponseError`; success sends `NewResponse`.  The returned
`Response` is the one passed to `t.write` (write failures themselves only
reach the error observer and are outside this model). -/
def handleRequestResponse (t : Transport) (req : Request) : Except Unit Response :=
  match t.methodHandlers req.method with
  | none => NewResponseError req.id (some (GoErr.rpcError ErrMethodNotFound))
  | some mh =>
    match mh req.params with
    | Except.error e => NewResponseError req.id (some e)
    | Except.ok result => Except.ok (NewResponse req.id result)

/-- Function `handleNotification` from rpc.go: an unregistered notification is dropped;
a handler failure goes to the error observer (returned here), never to the
peer.  No `Response` is ever written. -/
def handleNotification (t : Transport) (req : Request) : Option GoErr :=
  match t.notificationHandlers req.method with
  | none => none
  | some nh => nh req.params

/-- Function `handleMessage` from rpc.go, as the list of `Response`s written for the
message: a notification writes none, a request writes the one produced by
`handleRequestResponse`. -/
def handleMessage (t : Transport) (req : Request) : Except Unit (List Response) :=
  if req.IsNotification then Except.ok []
  else (handleRequestResponse t req).map fun r => [r]

/-- Observable events of one iteration of the initialization loop. -/
inductive InitEvent where
  | droppedNotification (req : Request)
  | handledNotification (req : Request)
  | sentResponse (resp : Response)

/-- One iteration of the pre-initialization loop in `Process` (rpc.go):
notifications other than `"exit"` are dropped, an `"exit"` notification is
dispatched, a request with a method other than `"initialize"` is answered
with `NewResponseError(req.ID, ErrServerNotInitialized)`, and an
`"initialize"` request is dispatched and breaks the loop (`Bool` result).
The `Transport` is returned exactly as the source leaves it: the loop body
contains no assignment to any `Transport` field. -/
def initStep (t : Transport) (req : Request) :
    Except Unit (Transport × List InitEvent × Bool) :=
  if req.IsNotification then
    if req.method ≠ "exit" then
      Except.ok (t, [InitEvent.droppedNotification req], false)
    else
      Except.ok (t, [InitEvent.handledNotification req], false)
  else if req.method ≠ "initialize" then
    (NewResponseError req.id (some (GoErr.rpcError ErrServerNotInitialized))).map
      fun resp => (t, [InitEvent.sentResponse resp], false)
  else
    (handleMessage t req).map fun rs => (t, rs.map InitEvent.sentResponse, true)

/-- The pre-initialization phase of `Process` over a decoded input stream.
Returns the transport, the events, and `some remaining` when the
`"initialize"` request broke the loop (`none` when the stream ended first,
which in the source is a `Read` error terminating `Process`). -/
def processInit (t : Transport) : List Request →
    Except Unit (Transport × List InitEvent × Option (List Request))
  | [] => Except.ok (t, [], none)
  | req :: rest => do
    let (t1, evs, broke) ← initStep t req
    if broke then
      pure (t1, evs, some rest)
    else do
      let (t2, evs2, rem) ← processInit t1 rest
      pure (t2, evs ++ evs2, rem)

/-! ### The framing codec (`Read`/`Write` in rpc.go)

`Write` marshals the message with `encoding/json`, emits
`Content-Length: <n>\r\n\r\n`, the body, and flushes.  `Read` parses a
MIME header block with `net/textproto`, parses the `Content-Length` value
with `strconv.ParseInt`, and decodes a `Request` from an `io.LimitReader`
capped at that length.  The model below works on `List Char`. -/

def digitChar (d : Nat) : Char := Char.ofNat (48 + d)

/-- Decimal formatting of a natural number (Go's `%d` / `strconv`),
written with explicit fuel so that it reduces by `rfl` on literals. -/
def natCharsAux : Nat → Nat → List Char → List Char
  | 0, _, acc => acc
  | fuel + 1, n, acc =>
    if n < 10 then digitChar n :: acc
    else natCharsAux fuel (n / 10) (digitChar (n % 10) :: acc)

def natChars (n : Nat) : List Char := natCharsAux (n + 1) n []

/-- Decimal formatting of an `int64` (Go's `encoding/json` number output). -/
def intChars (n : Int) : List Char :=
  if n < 0 then '-' :: natChars n.natAbs else natChars n.toNat

def hexDigitChar (d : Nat) : Char :=
  if d < 10 then digitChar d else Char.ofNat (87 + d)

/-- One character of Go's JSON string encoder: quote, backslash and the
common control characters get two-character escapes, other control
characters get a `u00XX` escape, and (Go's default HTML escaping)
the three HTML-significant characters also get `u00XX` escapes. -/
def escapeChar (c : Char) : List Char :=
  if c = '"' then ['\\', '"']
  else if c = '\\' then ['\\', '\\']
  else if c = '\n' then ['\\', 'n']
  else if c = '\r' then ['\\', 'r']
  else if c = '\t' then ['\\', 't']
  else if c.toNat < 32 then
    ['\\', 'u', '0', '0', hexDigitChar (c.toNat / 16), hexDigitChar (c.toNat % 16)]
  else if c = '<' ∨ c = '>' ∨ c = '&' then
    ['\\', 'u', '0', '0', hexDigitChar (c.toNat / 16), hexDigitChar (c.toNat % 16)]
  else [c]

def escList : List Char → List Char
  | [] => []
  | c :: cs => escapeChar c ++ escList cs

def serializeString (s : String) : List Char := '"' :: escList s.data ++ ['"']

mutual
/-- The `encoding/json` output for a `Json` value (no interstitial whitespace,
object fields in the order the marshalled struct declares them). -/
def Json.serialize : Json → List Char
  | Json.null => ['n', 'u', 'l', 'l']
  | Json.bool true => ['t', 'r', 'u', 'e']
  | Json.bool false => ['f', 'a', 'l', 's', 'e']
  | Json.num n => intChars n
  | Json.str s => serializeString s
  | Json.arr xs => '[' :: xs.serItems
  | Json.obj fs => '\x7b' :: fs.serFields

def JsonList.serItems : JsonList → List Char
  | JsonList.nil => [']']
  | JsonList.cons x xs => x.serialize ++ xs.serTail

def JsonList.serTail : JsonList → List Char
  | JsonList.nil => [']']
  | JsonList.cons x xs => ',' :: (x.serialize ++ xs.serTail)

def JsonFields.serFields : JsonFields → List Char
  | JsonFields.nil => ['\x7d']
  | JsonFields.cons k v fs => serializeString k ++ ':' :: (v.serialize ++ fs.serTail)

def JsonFields.serTail : JsonFields → List Char
  | JsonFields.nil => ['\x7d']
  | JsonFields.cons k v fs => ',' :: (serializeString k ++ ':' :: (v.serialize ++ fs.serTail))
end

/-- JSON insignificant whitespace (what `encoding/json` skips). -/
def isWsChar (c : Char) : Bool := c = ' ' ∨ c = '\t' ∨ c = '\n' ∨ c = '\r'

def skipWs (cs : List Char) : List Char := cs.dropWhile isWsChar

def unescapeChar (c : Char) : Option Char :=
  if c = '"' then some '"'
  else if c = '\\' then some '\\'
  else if c = '/' then some '/'
  else if c = 'n' then some '\n'
  else if c = 'r' then some '\r'
  else if c = 't' then some '\t'
  else if c = 'b' then some (Char.ofNat 8)
  else if c = 'f' then some (Char.ofNat 12)
  else none

/-- Body of a JSON string after the opening quote, up to and including the
closing quote (`u` escapes are not modelled). -/
def parseStringBody : List Char → Option (List Char × List Char)
  | [] => none
  | c :: rest =>
    if c = '"' then some ([], rest)
    else if c = '\\' then
      match rest with
      | [] => none
      | e :: rest2 =>
        match unescapeChar e with
        | none => none
        | some u => (parseStringBody rest2).map fun p => (u :: p.1, p.2)
    else (parseStringBody rest).map fun p => (c :: p.1, p.2)

def parseDigitsAux (acc : Nat) : List Char → Nat × List Char
  | [] => (acc, [])
  | c :: rest =>
    if c.isDigit then parseDigitsAux (acc * 10 + (c.toNat - 48)) rest else (acc, c :: rest)

/-- A maximal non-empty run of decimal digits. -/
def parseDigits : List Char → Option (Nat × List Char)
  | [] => none
  | c :: rest =>
    if c.isDigit then some (parseDigitsAux (c.toNat - 48) rest) else none

/-- A JSON integer (fractions and exponents are not modelled). -/
def parseIntChars (cs : List Char) : Option (Int × List Char) :=
  match cs with
  | [] => none
  | c :: rest =>
    if c = '-' then (parseDigits rest).map fun p => (-(p.1 : Int), p.2)
    else (parseDigits cs).map fun p => ((p.1 : Int), p.2)

/-- Consume an expected literal suffix (`ull` after `n`, and so on). -/
def expectChars : List Char → List Char → Option (List Char)
  | [], cs => some cs
  | _ :: _, [] => none
  | e :: es, c :: cs => if c = e then expectChars es cs else none

mutual
/-- Decode one JSON value, returning the unread remainder of the stream.
Faithful to `encoding/json` on the inputs this development evaluates it on
(it additionally tolerates a trailing comma before `]` and the closing
brace, and does not model `u` escapes, fractions or exponents). -/
def parseVal : Nat → List Char → Option (Json × List Char)
  | 0, _ => none
  | fuel + 1, cs =>
    match skipWs cs with
    | [] => none
    | c :: r =>
      if c = 'n' then (expectChars ['u', 'l', 'l'] r).map fun r2 => (Json.null, r2)
      else if c = 't' then (expectChars ['r', 'u', 'e'] r).map fun r2 => (Json.bool true, r2)
      else if c = 'f' then (expectChars ['a', 'l', 's', 'e'] r).map fun r2 => (Json.bool false, r2)
      else if c = '"' then (parseStringBody r).map fun p => (Json.str (String.mk p.1), p.2)
      else if c = '[' then (parseItems fuel r).map fun p => (Json.arr p.1, p.2)
      else if c = '\x7b' then (parseFields fuel r).map fun p => (Json.obj p.1, p.2)
      else (parseIntChars (c :: r)).map fun p => (Json.num p.1, p.2)

def parseItems : Nat → List Char → Option (JsonList × List Char)
  | 0, _ => none
  | fuel + 1, cs =>
    match skipWs cs with
    | [] => none
    | c :: r =>
      if c = ']' then some (JsonList.nil, r)
      else
        match parseVal fuel cs with
        | none => none
        | some (v, r1) =>
          match skipWs r1 with
          | [] => none
          | c2 :: r2 =>
            if c2 = ',' then
              match parseItems fuel r2 with
              | none => none
              | some p => some (JsonList.cons v p.1, p.2)
            else if c2 = ']' then some (JsonList.cons v JsonList.nil, r2)
            else none

def parseFields : Nat → List Char → Option (JsonFields × List Char)
  | 0, _ => none
  | fuel + 1, cs =>
    match skipWs cs with
    | [] => none
    | c :: r =>
      if c = '\x7d' then some (JsonFields.nil, r)
      else if c = '"' then
        match parseStringBody r with
        | none => none
        | some (k, r1) =>
          match skipWs r1 with
          | [] => none
          | c2 :: r2 =>
            if c2 = ':' then
              match parseVal fuel r2 with
              | none => none
              | some (v, r3) =>
                match skipWs r3 with
                | [] => none
                | c3 :: r4 =>
                  if c3 = ',' then
                    match parseFields fuel r4 with
                    | none => none
                    | some p => some (JsonFields.cons (String.mk k) v p.1, p.2)
                  else if c3 = '\x7d' then
                    some (JsonFields.cons (String.mk k) v JsonFields.nil, r4)
                  else none
            else none
      else none
end

mutual
/-- Node-count measure bounding the fuel `parseVal` needs on serializer
output. -/
def Json.size : Json → Nat
  | Json.arr xs => xs.sizeL + 1
  | Json.obj fs => fs.sizeF + 1
  | _ => 1

def JsonList.sizeL : JsonList → Nat
  | JsonList.nil => 1
  | JsonList.cons x xs => x.size + xs.sizeL + 1

def JsonFields.sizeF : JsonFields → Nat
  | JsonFields.nil => 1
  | JsonFields.cons _ v fs => v.size + fs.sizeF + 1
end

/-- Field lookup with `encoding/json` semantics: on duplicate keys the last
occurrence wins. -/
def jsonLookup : JsonFields → String → Option Json
  | JsonFields.nil, _ => none
  | JsonFields.cons k v rest, key =>
    match jsonLookup rest key with
    | some r => some r
    | none => if k = key then some v else none

/-- Decoding a JSON value into a Go `string` struct field: an absent field
leaves the zero value `""`, JSON null is a no-op on the zero value, any
non-string value is a type error aborting the decode. -/
def decodeStringField : Option Json → Option String
  | none => some ""
  | some Json.null => some ""
  | some (Json.str s) => some s
  | some _ => none

/-- Decoding into the `*json.RawMessage` field `ID`: `encoding/json` sets a
pointer field to nil for JSON null, so a null id and an absent id are both
`none`; any other value is captured verbatim. -/
def decodeIdField : Option Json → Option Json
  | none => none
  | some Json.null => none
  | some j => some j

/-- Decoding into the non-pointer `json.RawMessage` field `Params`: an absent
field leaves the nil slice, JSON null is captured as the raw bytes `null`. -/
def decodeParamsField : Option Json → Option Json
  | none => none
  | some j => some j

/-- Go `json.Decoder.Decode` into a `Request` struct: only a JSON object (or
JSON null, which is a no-op leaving the zero value) is accepted. -/
def jsonToRequest : Json → Option Request
  | Json.null => some { protocolVersion := "", id := none, method := "", params := none }
  | Json.obj fs =>
    match decodeStringField (jsonLookup fs "jsonrpc"), decodeStringField (jsonLookup fs "method") with
    | some pv, some m =>
      some { protocolVersion := pv
             id := decodeIdField (jsonLookup fs "id")
             method := m
             params := decodeParamsField (jsonLookup fs "params") }
    | _, _ => none
  | _ => none

/-- Decode the body region of a frame (the bytes behind the `LimitReader`). -/
def decodeRequestBytes (body : List Char) : Option Request :=
  match parseVal (2 * body.length + 2) body with
  | some (j, _) => jsonToRequest j
  | none => none

/-- One header line up to a CRLF terminator. -/
def takeLine : List Char → Option (List Char × List Char)
  | [] => none
  | [_] => none
  | c1 :: c2 :: rest =>
    if c1 = '\r' ∧ c2 = '\n' then some ([], rest)
    else (takeLine (c2 :: rest)).map fun p => (c1 :: p.1, p.2)

def splitAtColon : List Char → Option (List Char × List Char)
  | [] => none
  | c :: rest =>
    if c = ':' then some ([], rest)
    else (splitAtColon rest).map fun p => (c :: p.1, p.2)

def canonAux : Bool → List Char → List Char
  | _, [] => []
  | upper, c :: rest =>
    (if upper then c.toUpper else c.toLower) :: canonAux (c = '-') rest

/-- Go `textproto.CanonicalMIMEHeaderKey`: capitalize the first letter and every
letter following a hyphen, lowercase the rest. -/
def canonicalKey (k : List Char) : String := String.mk (canonAux true k)

def parseHeaderLine (l : List Char) : Option (String × String) :=
  match splitAtColon l with
  | none => none
  | some (k, v) => some (canonicalKey k, String.mk (v.dropWhile (fun c => c = ' ')))

/-- Go `textproto.ReadMIMEHeader`: header lines until a blank line.  Each line
consumes at least its CRLF, so `length + 1` fuel always suffices. -/
def readMIMEHeaderAux : Nat → List Char → Option (List (String × String) × List Char)
  | 0, _ => none
  | fuel + 1, cs =>
    match takeLine cs with
    | none => none
    | some (l, rest) =>
      if l.isEmpty then some ([], rest)
      else
        match parseHeaderLine l with
        | none => none
        | some kv =>
          match readMIMEHeaderAux fuel rest with
          | none => none
          | some (hs, r) => some (kv :: hs, r)

def readMIMEHeader (cs : List Char) : Option (List (String × String) × List Char) :=
  readMIMEHeaderAux (cs.length + 1) cs

/-- Go `textproto.MIMEHeader.Get`: first value stored under the canonical key,
`""` when absent. -/
def headerGet (hs : List (String × String)) (k : String) : String :=
  match hs.find? (fun p => p.1 = canonicalKey k.data) with
  | some p => p.2
  | none => ""

/-- Go `strconv.ParseInt(s, 10, 64)`: an optional sign then digits, consuming
the whole string. -/
def parseInt64String (s : String) : Option Int :=
  match parseIntChars s.data with
  | some (n, []) => some n
  | _ => none

/-- Function `Read` from rpc.go: MIME header, `Content-Length`, decode the body behind
an `io.LimitReader`, reject a protocol-version mismatch.  Returns the decoded
request and the unread remainder of the stream (the `LimitReader` pins the
cursor to the first byte after the declared body whenever the JSON value
spans the declared length). -/
def Read (cs : List Char) : Option (Request × List Char) :=
  match readMIMEHeader cs with
  | none => none
  | some (hs, r1) =>
    match parseInt64String (headerGet hs "Content-Length") with
    | none => none
    | some n =>
      match decodeRequestBytes (r1.take n.toNat) with
      | none => none
      | some req => if req.IsJSONRPC then some (req, r1.drop n.toNat) else none

def headerChars (n : Nat) : List Char :=
  "Content-Length: ".data ++ natChars n ++ "\r\n\r\n".data

/-- Function `Write` from rpc.go, applied to the marshalled message: header with the
exact body byte count, then the body. -/
def Write (body : List Char) : List Char := headerChars body.length ++ body

/-- Go `json.Marshal` of an `Error` (struct field order: code, message, data). -/
def jsonOfError (e : Error) : Json :=
  Json.obj (JsonFields.cons "code" (Json.num e.code)
    (JsonFields.cons "message" (Json.str e.message)
      (JsonFields.cons "data" e.data JsonFields.nil)))

/-- Go `json.Marshal` of a `Response` (struct field order: jsonrpc, id, result,
error; a nil `ID` pointer and a nil `Error` pointer marshal as JSON null). -/
def jsonOfResponse (r : Response) : Json :=
  Json.obj (JsonFields.cons "jsonrpc" (Json.str r.protocolVersion)
    (JsonFields.cons "id" (match r.id with | none => Json.null | some j => j)
      (JsonFields.cons "result" r.result
        (JsonFields.cons "error"
          (match r.error with | none => Json.null | some e => jsonOfError e)
          JsonFields.nil))))

/-- Applying `Write(w, resp)` for a `Response` message. -/
def writeResponse (r : Response) : List Char := Write (jsonOfResponse r).serialize

/-! ### The steady-state concurrency gate (phase 2 of `Process`)

    sem := make(chan struct, concurrencyLimit)
    for :
      sem <- item            // blocks while the gate is saturated
      req := Read(reader)
      go handleMessage(req); <-sem

`GateState.sem` is the channel occupancy, `active` the running handler
goroutines. -/
structure GateState where
  pending : List Request
  sem : Nat
  active : List Request
  completed : List Request

/-- One scheduler step of the steady-state loop: `acquire` is the read loop
acquiring a slot, reading the next request and spawning its handler (enabled
only while `sem < cap`); `finish` is a running handler completing and
releasing its slot. -/
inductive GateStep (cap : Nat) : GateState → GateState → Prop
  | acquire (s : GateState) (req : Request) (rest : List Request)
      (hsem : s.sem < cap) (hpending : s.pending = req :: rest) :
      GateStep cap s ⟨rest, s.sem + 1, req :: s.active, s.completed⟩
  | finish (s : GateState) (req : Request) (pre post : List Request)
      (hactive : s.active = pre ++ req :: post) :
      GateStep cap s ⟨s.pending, s.sem - 1, pre ++ post, req :: s.completed⟩

/-- Reflexive-transitive closure of `GateStep`. -/
inductive GateReachable (cap : Nat) (init : GateState) : GateState → Prop
  | refl : GateReachable cap init init
  | tail {s s' : GateState} :
      GateReachable cap init s → GateStep cap s s' → GateReachable cap init s'

/-- The initial steady-state configuration: the stream of pending requests,
an empty channel, no running handlers. -/
def gateInit (msgs : List Request) : GateState :=
  { pending := msgs, sem := 0, active := [], completed := [] }

/-! ### Proof-side auxiliary definitions -/

/-- Whether the stream does not start with a digit (so a preceding maximal
digit run cannot extend into it). -/
def noDigitHead : List Char → Bool
  | [] => true
  | c :: _ => !c.isDigit

/-- Big-endian decimal digits; proof-side mirror of `natCharsAux`. -/
def digitsBE (n : Nat) : List Char :=
  if n < 10 then [digitChar n]
  else digitsBE (n / 10) ++ [digitChar (n % 10)]
decreasing_by exact Nat.div_lt_self (by omega) (by omega)

/-- Characters that Go's JSON string encoder emits unescaped. -/
def wfChar (c : Char) : Bool :=
  decide (c ≠ '"' ∧ c ≠ '\\' ∧ 32 ≤ c.toNat ∧ c ≠ '<' ∧ c ≠ '>' ∧ c ≠ '&')

def wfString (s : String) : Bool := s.data.all wfChar

mutual
/-- JSON values whose serialization involves no escape sequences (the
round-trip theorems are stated for these). -/
def Json.wf : Json → Bool
  | Json.null => true
  | Json.bool _ => true
  | Json.num _ => true
  | Json.str s => wfString s
  | Json.arr xs => xs.wfL
  | Json.obj fs => fs.wfF

def JsonList.wfL : JsonList → Bool
  | JsonList.nil => true
  | JsonList.cons x xs => x.wf && xs.wfL

def JsonFields.wfF : JsonFields → Bool
  | JsonFields.nil => true
  | JsonFields.cons k v fs => wfString k && v.wf && fs.wfF
end

/-! ## Claims that evaluate directly -/

/-- C1: the spec says a handler failure that is already an `*Error` passes
through verbatim and any other failure is wrapped with code zero — but
`newError`'s guard is inverted (`if err != nil` returns nil), so both an
`*Error` failure and a plain failure produce a `Response` whose error object
is nil. -/
theorem c1_failure_mapping_dropped :
    NewResponseError (some (Json.num 1))
        (some (GoErr.rpcError { code := 7, message := "boom", data := Json.null })) =
      Except.ok { protocolVersion := "2.0", id := some (Json.num 1),
                  result := Json.null, error := none } ∧
    NewResponseError (some (Json.num 1)) (some (GoErr.plain "boom")) =
      Except.ok { protocolVersion := "2.0", id := some (Json.num 1),
                  result := Json.null, error := none } :=
  ⟨rfl, rfl⟩

/-- C2: a request for an unregistered method is indeed answered (never
dropped) with a `Response` tagged with the request's identifier, but because
of `newError`'s inverted guard the error object is nil instead of carrying
the method-not-found code -32601. -/
theorem c2_unregistered_method_response :
    handleRequestResponse New
        { protocolVersion := "2.0", id := some (Json.num 1), method := "m", params := none } =
      Except.ok { protocolVersion := "2.0", id := some (Json.num 1),
                  result := Json.null, error := none } :=
  rfl

/-- C3: an error `Response` built from a non-nil failure is supposed to have
a non-null error object and a null result, but `NewResponseError` returns a
`Response` with both `result` and `error` null, violating the
exactly-one-of-result-or-error invariant. -/
theorem c3_error_response_both_null :
    NewResponseError (some (Json.num 2)) (some (GoErr.rpcError ErrInternal)) =
      Except.ok { protocolVersion := "2.0", id := some (Json.num 2),
                  result := Json.null, error := none } ∧
    (Response.result { protocolVersion := "2.0", id := some (Json.num 2),
                       result := Json.null, error := none } = Json.null ∧
     Response.error { protocolVersion := "2.0", id := some (Json.num 2),
                      result := Json.null, error := none } = none) :=
  ⟨rfl, rfl, rfl⟩

/-- C4: in the pre-initialization loop a request with a non-initialize
method is answered via `NewResponseError(req.ID, ErrServerNotInitialized)`,
but the written `Response`'s error object is nil (inverted guard in
`newError`), so it does not carry the server-not-initialized code -32002. -/
theorem c4_preinit_request_response :
    processInit New
        [{ protocolVersion := "2.0", id := some (Json.num 1),
           method := "textDocument/hover", params := none }] =
      Except.ok (New,
        [InitEvent.sentResponse
          { protocolVersion := "2.0", id := some (Json.num 1),
            result := Json.null, error := none }], none) :=
  rfl

/-- C10: `newError` applied to the nil error interface falls past the
inverted guard, the type assertion fails, and `err.Error()` is a method call
on the nil interface — a panic, so `NewResponseError` with a nil error does
not return a `Response`. -/
theorem c10_newError_nil_panics :
    newError none = Except.error () ∧
    NewResponseError (some (Json.num 1)) none = Except.error () :=
  ⟨rfl, rfl⟩

/-- C5 counterexample: a request whose `id` is JSON null decodes to a
`Request` with a nil `ID` pointer, is classified as a notification, and is
routed through the notification path, which writes no `Response` at all —
the null-vs-absent identifier distinction is not preserved. -/
theorem c5_null_id_treated_as_notification :
    decodeRequestBytes ("\x7b\"jsonrpc\":\"2.0\",\"id\":null,\"method\":\"m\"\x7d".data) =
      some { protocolVersion := "2.0", id := none, method := "m", params := none } ∧
    Request.IsNotification
      { protocolVersion := "2.0", id := none, method := "m", params := none } = true ∧
    handleMessage New
      { protocolVersion := "2.0", id := none, method := "m", params := none } =
      Except.ok [] :=
  ⟨rfl, rfl, rfl⟩

/-- C6 counterexample: after the `"initialize"` request has been received and
answered (the loop breaks, an answer was written), the transport's
`initialized` field is still `false`: no statement in `Process` ever assigns
it. -/
theorem c6_initialized_stays_false :
    initStep New
        { protocolVersion := "2.0", id := some (Json.num 1),
          method := "initialize", params := none } =
      Except.ok (New,
        [InitEvent.sentResponse
          { protocolVersion := "2.0", id := some (Json.num 1),
            result := Json.null, error := none }], true) ∧
    New.initialized = false :=
  ⟨rfl, rfl⟩

/-- C7 counterexample: two `Response`s that differ in their result payload
produce frames that `Read` decodes to the same value (a `Request` with no
result or error field at all), so the write-then-read round trip cannot
yield a value equal to the original in result-or-error shape and payload. -/
theorem c7_roundtrip_loses_payload :
    Read (writeResponse { protocolVersion := "2.0", id := some (Json.num 1),
                          result := Json.num 5, error := none }) =
      some ({ protocolVersion := "2.0", id := some (Json.num 1),
              method := "", params := none }, []) ∧
    Read (writeResponse { protocolVersion := "2.0", id := some (Json.num 1),
                          result := Json.num 6, error := none }) =
      some ({ protocolVersion := "2.0", id := some (Json.num 1),
              method := "", params := none }, []) ∧
    Json.num 5 ≠ Json.num 6 :=
  ⟨rfl, rfl, by simp⟩

/-! ## The steady-state concurrency gate -/

/-- In every reachable gate state the number of running handlers equals the
channel occupancy, which never exceeds the capacity. -/
theorem gate_invariant (cap : Nat) (msgs : List Request) (s : GateState)
    (h : GateReachable cap (gateInit msgs) s) :
    s.active.length = s.sem ∧ s.sem ≤ cap := by
  induction h with
  | refl => simp [gateInit]
  | tail hreach hstep ih =>
    obtain ⟨ih1, ih2⟩ := ih
    cases hstep with
    | acquire req rest hsem hpending =>
      simp only [List.length_cons]
      omega
    | finish req pre post hactive =>
      rw [hactive] at ih1
      simp only [List.length_append, List.length_cons] at ih1 ⊢
      omega

/-- C9: with the constructed transport's gate capacity (4), at most 4 handler
invocations are ever concurrently active, and in a saturated state every
possible scheduler step is the completion of a running handler — the read
loop cannot acquire the next request until one of the running handlers
finishes. -/
theorem c9_gate_bounds (msgs : List Request) (s : GateState)
    (h : GateReachable New.concurrencyLimit (gateInit msgs) s) :
    s.active.length ≤ New.concurrencyLimit ∧
    (s.sem = New.concurrencyLimit →
      ∀ s', GateStep New.concurrencyLimit s s' →
        s'.active.length + 1 = s.active.length) := by
  obtain ⟨h1, h2⟩ := gate_invariant New.concurrencyLimit msgs s h
  refine ⟨by omega, fun hsat s' hstep => ?_⟩
  cases hstep with
  | acquire req rest hsem hpending => omega
  | finish req pre post hactive =>
    rw [hactive]
    simp only [List.length_append, List.length_cons]
    omega

/-- Witness for C9: a state with all four slots occupied is reachable, and
the bound holds there. -/
theorem c9_gate_bounds_witness :
    (GateState.active
      { pending := [{ protocolVersion := "2.0", id := some (Json.num 5),
                      method := "m", params := none }]
        sem := 4
        active := List.replicate 4
          { protocolVersion := "2.0", id := some (Json.num 5), method := "m", params := none }
        completed := [] }).length ≤ New.concurrencyLimit := by
  refine (c9_gate_bounds
    (List.replicate 5
      { protocolVersion := "2.0", id := some (Json.num 5), method := "m", params := none })
    _ ?_).1
  exact GateReachable.tail (GateReachable.tail (GateReachable.tail (GateReachable.tail
    GateReachable.refl
    (GateStep.acquire _ _ _ (by decide) rfl))
    (GateStep.acquire _ _ _ (by decide) rfl))
    (GateStep.acquire _ _ _ (by decide) rfl))
    (GateStep.acquire _ _ _ (by decide) rfl)

/-! ## Identifier preservation and the session flag -/

/-- C5 (amended): every `Response` the transport produces for a `Request` —
on the steady-state request path and on the pre-initialization path alike —
carries exactly the originating request's identifier; however the
null-vs-absent distinction is not preserved: a JSON-null id decodes to an
absent id, and a message without an id takes the notification path, which
writes no `Response`. -/
theorem c5_response_id_matches :
    (∀ (t : Transport) (req : Request) (resp : Response),
        handleRequestResponse t req = Except.ok resp → resp.id = req.id) ∧
    (∀ (t : Transport) (req : Request) (r : Transport × List InitEvent × Bool) (resp : Response),
        initStep t req = Except.ok r → InitEvent.sentResponse resp ∈ r.2.1 →
        resp.id = req.id) ∧
    decodeIdField (some Json.null) = none ∧
    (∀ (t : Transport) (req : Request), req.IsNotification = true →
        handleMessage t req = Except.ok []) := by
  have hpart1 : ∀ (t : Transport) (req : Request) (resp : Response),
      handleRequestResponse t req = Except.ok resp → resp.id = req.id := by
    intro t req resp h
    unfold handleRequestResponse at h
    cases hmh : t.methodHandlers req.method with
    | none =>
      rw [hmh] at h
      simp only [NewResponseError, newError, Option.isSome_some, if_true, Except.map,
        Except.ok.injEq] at h
      rw [← h]
    | some mh =>
      rw [hmh] at h
      dsimp only at h
      cases hr : mh req.params with
      | error e =>
        rw [hr] at h
        simp only [NewResponseError, newError, Option.isSome_some, if_true, Except.map,
          Except.ok.injEq] at h
        rw [← h]
      | ok result =>
        rw [hr] at h
        simp only [NewResponse, Except.ok.injEq] at h
        rw [← h]
  refine ⟨hpart1, ?_, rfl, ?_⟩
  · intro t req r resp h hmem
    unfold initStep at h
    by_cases hn : req.IsNotification = true
    · rw [if_pos hn] at h
      by_cases hex : req.method ≠ "exit"
      · rw [if_pos hex] at h
        simp only [Except.ok.injEq] at h
        rw [← h] at hmem
        simp at hmem
      · rw [if_neg hex] at h
        simp only [Except.ok.injEq] at h
        rw [← h] at hmem
        simp at hmem
    · rw [if_neg hn] at h
      by_cases hi : req.method ≠ "initialize"
      · rw [if_pos hi] at h
        simp only [NewResponseError, newError, Option.isSome_some, if_true, Except.map,
          Except.ok.injEq] at h
        rw [← h] at hmem
        simp only [List.mem_singleton] at hmem
        injection hmem with h2
        rw [h2]
      · rw [if_neg hi] at h
        rw [handleMessage, if_neg hn] at h
        cases hrr : handleRequestResponse t req with
        | error e => rw [hrr] at h; simp [Except.map] at h
        | ok resp0 =>
          rw [hrr] at h
          simp only [Except.map, Except.ok.injEq] at h
          rw [← h] at hmem
          simp only [List.map_cons, List.map_nil, List.mem_singleton] at hmem
          injection hmem with h2
          rw [h2]
          exact hpart1 t req resp0 hrr
  · intro t req h
    simp [handleMessage, h]

/-- Witness for C5: the method-not-found response to a request with id 7
carries id 7. -/
theorem c5_response_id_matches_witness :
    Response.id { protocolVersion := "2.0", id := some (Json.num 7),
                  result := Json.null, error := none } =
      Request.id { protocolVersion := "2.0", id := some (Json.num 7),
                   method := "m", params := none } :=
  c5_response_id_matches.1 New
    { protocolVersion := "2.0", id := some (Json.num 7), method := "m", params := none }
    { protocolVersion := "2.0", id := some (Json.num 7), result := Json.null, error := none }
    rfl

/-- C6 (amended): the session boolean is `false` at construction and is never
modified anywhere in the transport: no iteration of the initialization loop,
and hence no run of the whole pre-initialization phase, changes it.  The
completion of the handshake is represented by leaving the loop, not by the
field. -/
theorem c6_initialized_never_written :
    New.initialized = false ∧
    (∀ (t : Transport) (req : Request) (r : Transport × List InitEvent × Bool),
        initStep t req = Except.ok r → r.1.initialized = t.initialized) ∧
    (∀ (t : Transport) (msgs : List Request)
        (r : Transport × List InitEvent × Option (List Request)),
        processInit t msgs = Except.ok r → r.1.initialized = t.initialized) := by
  have hstep : ∀ (t : Transport) (req : Request) (r : Transport × List InitEvent × Bool),
      initStep t req = Except.ok r → r.1 = t := by
    intro t req r h
    unfold initStep at h
    split at h
    · split at h <;> (simp only [Except.ok.injEq] at h; rw [← h])
    · split at h
      · simp only [NewResponseError, newError, Option.isSome_some, if_true, Except.map,
          Except.ok.injEq] at h
        rw [← h]
      · unfold handleMessage at h
        split at h
        · simp only [Except.map, Except.ok.injEq] at h
          rw [← h]
        · cases hrr : handleRequestResponse t req with
          | error e => rw [hrr] at h; simp [Except.map] at h
          | ok resp => rw [hrr] at h; simp only [Except.map, Except.ok.injEq] at h; rw [← h]
  refine ⟨rfl, fun t req r h => by rw [hstep t req r h], ?_⟩
  intro t msgs
  induction msgs generalizing t with
  | nil =>
    intro r h
    simp only [processInit, Except.ok.injEq] at h
    rw [← h]
  | cons req rest ih =>
    intro r h
    simp only [processInit] at h
    cases hs : initStep t req with
    | error e => rw [hs] at h; simp [Bind.bind, Except.bind] at h
    | ok tri =>
      rw [hs] at h
      obtain ⟨t1, evs, broke⟩ := tri
      have ht1 : t1 = t := hstep t req (t1, evs, broke) hs
      simp only [Bind.bind, Except.bind] at h
      split at h
      · simp only [pure, Except.pure, Except.ok.injEq] at h
        rw [← h]
        exact congrArg Transport.initialized ht1
      · cases hp : processInit t1 rest with
        | error e => rw [hp] at h; simp at h
        | ok tri2 =>
          obtain ⟨t2, evs2, rem⟩ := tri2
          rw [hp] at h
          simp only [pure, Except.pure, Except.ok.injEq] at h
          rw [← h]
          have h2 := ih t1 (t2, evs2, rem) hp
          rw [h2]
          exact congrArg Transport.initialized ht1

/-- Witness for C6: running the pre-initialization phase over an exit
notification followed by an initialize request leaves the flag exactly as
constructed. -/
theorem c6_initialized_never_written_witness :
    New.initialized = false ∧
    Transport.initialized New = Transport.initialized New :=
  ⟨c6_initialized_never_written.1,
   c6_initialized_never_written.2.2 New
    [{ protocolVersion := "2.0", id := none, method := "exit", params := none },
     { protocolVersion := "2.0", id := some (Json.num 1), method := "initialize", params := none }]
    (New,
      [InitEvent.handledNotification
        { protocolVersion := "2.0", id := none, method := "exit", params := none },
       InitEvent.sentResponse
        { protocolVersion := "2.0", id := some (Json.num 1),
          result := Json.null, error := none }], some [])
    rfl⟩

/-! ## Decimal digits -/

theorem digitChar_spec (d : Nat) (h : d < 10) :
    (digitChar d).isDigit = true ∧ (digitChar d).toNat - 48 = d := by
  interval_cases d <;> exact ⟨by decide, by decide⟩

theorem isDigit_ne_of {c x : Char} (h : c.isDigit = true) (hx : x.isDigit = false) : c ≠ x :=
  fun hc => by subst hc; rw [h] at hx; cases hx

theorem isDigit_not_ws {c : Char} (h : c.isDigit = true) : isWsChar c = false := by
  simp only [isWsChar, decide_eq_false_iff_not]
  rintro (hc | hc | hc | hc) <;> (subst hc; exact absurd h (by decide))

theorem digitsBE_digits (n : Nat) : ∀ c ∈ digitsBE n, c.isDigit = true := by
  induction n using Nat.strong_induction_on with
  | _ n ih =>
    rw [digitsBE]
    split
    · next h10 =>
      intro c hc
      simp only [List.mem_singleton] at hc
      subst hc
      exact (digitChar_spec n h10).1
    · next h10 =>
      intro c hc
      rw [List.mem_append] at hc
      rcases hc with hc | hc
      · exact ih (n / 10) (Nat.div_lt_self (by omega) (by omega)) c hc
      · simp only [List.mem_singleton] at hc
        subst hc
        exact (digitChar_spec (n % 10) (Nat.mod_lt _ (by omega))).1

theorem digitsBE_ne_nil (n : Nat) : digitsBE n ≠ [] := by
  rw [digitsBE]; split <;> simp

theorem digitsBE_cons (n : Nat) : ∃ c ds, digitsBE n = c :: ds ∧ c.isDigit = true := by
  cases h : digitsBE n with
  | nil => exact absurd h (digitsBE_ne_nil n)
  | cons c ds =>
    refine ⟨c, ds, rfl, ?_⟩
    have := digitsBE_digits n
    rw [h] at this
    exact this c (by simp)

theorem natCharsAux_eq (fuel : Nat) : ∀ n acc, n < fuel →
    natCharsAux fuel n acc = digitsBE n ++ acc := by
  induction fuel with
  | zero => intro n acc h; omega
  | succ f ih =>
    intro n acc h
    rw [natCharsAux]
    by_cases h10 : n < 10
    · rw [if_pos h10]
      conv_rhs => rw [digitsBE]
      rw [if_pos h10]
      rfl
    · rw [if_neg h10]
      have hdiv : n / 10 < n := Nat.div_lt_self (by omega) (by omega)
      rw [ih (n / 10) (digitChar (n % 10) :: acc) (by omega)]
      conv_rhs => rw [digitsBE]
      rw [if_neg h10]
      simp [List.append_assoc]

theorem natChars_eq (n : Nat) : natChars n = digitsBE n := by
  rw [natChars, natCharsAux_eq (n + 1) n [] (by omega), List.append_nil]

theorem natChars_digits (n : Nat) : ∀ c ∈ natChars n, c.isDigit = true := by
  rw [natChars_eq]; exact digitsBE_digits n

theorem parseDigitsAux_append : ∀ (ds : List Char) (acc : Nat) (rest : List Char),
    (∀ c ∈ ds, c.isDigit = true) → noDigitHead rest = true →
    parseDigitsAux acc (ds ++ rest) =
      (List.foldl (fun a c => a * 10 + (c.toNat - 48)) acc ds, rest) := by
  intro ds
  induction ds with
  | nil =>
    intro acc rest hds hrest
    simp only [List.nil_append, List.foldl_nil]
    cases rest with
    | nil => rfl
    | cons c cs =>
      simp only [noDigitHead, Bool.not_eq_true'] at hrest
      simp [parseDigitsAux, hrest]
  | cons d ds ih =>
    intro acc rest hds hrest
    have hd : d.isDigit = true := hds d (by simp)
    simp only [List.cons_append, List.foldl_cons]
    rw [parseDigitsAux, if_pos hd]
    exact ih _ rest (fun c hc => hds c (by simp [hc])) hrest

theorem foldl_digitsBE (n : Nat) : ∀ acc,
    List.foldl (fun a c => a * 10 + (c.toNat - 48)) acc (digitsBE n) =
      acc * 10 ^ (digitsBE n).length + n := by
  induction n using Nat.strong_induction_on with
  | _ n ih =>
    intro acc
    rw [digitsBE]
    split
    · next h10 =>
      simp only [List.foldl_cons, List.foldl_nil, List.length_singleton]
      rw [(digitChar_spec n h10).2, pow_one]
    · next h10 =>
      rw [List.foldl_append]
      simp only [List.foldl_cons, List.foldl_nil, List.length_append, List.length_singleton]
      rw [ih (n / 10) (Nat.div_lt_self (by omega) (by omega)) acc]
      rw [(digitChar_spec (n % 10) (Nat.mod_lt _ (by omega))).2]
      rw [pow_succ, ← mul_assoc]
      omega

theorem parseDigits_digitsBE (n : Nat) (rest : List Char) (hrest : noDigitHead rest = true) :
    parseDigits (digitsBE n ++ rest) = some (n, rest) := by
  obtain ⟨c, ds, hcds, hc⟩ := digitsBE_cons n
  have hdigits := digitsBE_digits n
  rw [hcds] at hdigits ⊢
  simp only [List.cons_append]
  rw [parseDigits, if_pos hc]
  rw [parseDigitsAux_append ds _ rest (fun x hx => hdigits x (by simp [hx])) hrest]
  have hfold := foldl_digitsBE n 0
  rw [hcds] at hfold
  simp only [List.foldl_cons, Nat.zero_mul, Nat.zero_add] at hfold
  rw [hfold]

theorem parseIntChars_natChars (n : Nat) (rest : List Char) (hrest : noDigitHead rest = true) :
    parseIntChars (natChars n ++ rest) = some ((n : Int), rest) := by
  rw [natChars_eq]
  obtain ⟨c, ds, hcds, hc⟩ := digitsBE_cons n
  rw [hcds]
  simp only [List.cons_append]
  rw [parseIntChars, if_neg (isDigit_ne_of hc (by decide))]
  rw [show (c :: (ds ++ rest)) = (c :: ds) ++ rest from rfl, ← hcds]
  rw [parseDigits_digitsBE n rest hrest]
  rfl

theorem parseIntChars_intChars (i : Int) (rest : List Char) (hrest : noDigitHead rest = true) :
    parseIntChars (intChars i ++ rest) = some (i, rest) := by
  by_cases hneg : i < 0
  · rw [intChars, if_pos hneg]
    simp only [List.cons_append]
    rw [parseIntChars, if_pos rfl]
    rw [natChars_eq]
    rw [parseDigits_digitsBE i.natAbs rest hrest]
    have habs : -(i.natAbs : Int) = i := by omega
    show some (-(i.natAbs : Int), rest) = some (i, rest)
    rw [habs]
  · rw [intChars, if_neg hneg]
    rw [parseIntChars_natChars i.toNat rest hrest]
    have : (i.toNat : Int) = i := Int.toNat_of_nonneg (by omega)
    rw [this]

/-! ## Header framing -/

theorem takeLine_append : ∀ (l rest : List Char), (∀ c ∈ l, c ≠ '\r') →
    takeLine (l ++ '\r' :: '\n' :: rest) = some (l, rest) := by
  intro l
  induction l with
  | nil => intro rest hl; simp [takeLine]
  | cons c l ih =>
    intro rest hl
    have hc : c ≠ '\r' := hl c (by simp)
    cases l with
    | nil =>
      simp only [List.nil_append, List.cons_append]
      rw [takeLine, if_neg (by simp [hc])]
      simp [takeLine]
    | cons c2 l2 =>
      simp only [List.cons_append]
      rw [takeLine, if_neg (by simp [hc])]
      have := ih rest (fun x hx => hl x (by simp [hx]))
      simp only [List.cons_append] at this
      rw [this]
      rfl

theorem splitAtColon_append : ∀ (k v : List Char), (∀ c ∈ k, c ≠ ':') →
    splitAtColon (k ++ ':' :: v) = some (k, v) := by
  intro k
  induction k with
  | nil => intro v hk; simp [splitAtColon]
  | cons c k ih =>
    intro v hk
    have hc : c ≠ ':' := hk c (by simp)
    simp only [List.cons_append]
    rw [splitAtColon, if_neg hc, ih v (fun x hx => hk x (by simp [hx]))]
    rfl

theorem headerChars_eq (n : Nat) (s : List Char) :
    headerChars n ++ s =
      ("Content-Length".data ++ ':' :: ' ' :: natChars n) ++
        '\r' :: '\n' :: ('\r' :: '\n' :: s) := by
  have h1 : "Content-Length: ".data = "Content-Length".data ++ [':', ' '] := rfl
  have h2 : "\r\n\r\n".data = ['\r', '\n', '\r', '\n'] := rfl
  rw [headerChars, h1, h2]
  simp [List.append_assoc]

theorem readMIMEHeaderAux_frame (f : Nat) (n : Nat) (s : List Char) :
    readMIMEHeaderAux (f + 2) (headerChars n ++ s) =
      some ([("Content-Length", String.mk (natChars n))], s) := by
  have h1 : takeLine (headerChars n ++ s) =
      some ("Content-Length".data ++ ':' :: ' ' :: natChars n, '\r' :: '\n' :: s) := by
    rw [headerChars_eq]
    refine takeLine_append _ _ ?_
    intro c hc
    rcases List.mem_append.mp hc with hc | hc
    · have hall : ∀ c ∈ "Content-Length".data, c ≠ '\r' := by decide
      exact hall c hc
    · rcases hc with _ | ⟨_, hc⟩
      · decide
      · rcases hc with _ | ⟨_, hc⟩
        · decide
        · exact isDigit_ne_of (natChars_digits n c hc) (by decide)
  have hcons : "Content-Length".data ++ ':' :: ' ' :: natChars n =
      'C' :: ("ontent-Length".data ++ ':' :: ' ' :: natChars n) := rfl
  have hsplit : parseHeaderLine ("Content-Length".data ++ ':' :: ' ' :: natChars n) =
      some ("Content-Length", String.mk (natChars n)) := by
    rw [parseHeaderLine]
    have hk : ∀ c ∈ "Content-Length".data, c ≠ ':' := by decide
    rw [splitAtColon_append "Content-Length".data (' ' :: natChars n) hk]
    dsimp only
    have hdrop : List.dropWhile (fun c => decide (c = ' ')) (' ' :: natChars n) = natChars n := by
      rw [List.dropWhile_cons_of_pos (by decide)]
      cases hnc : natChars n with
      | nil => rfl
      | cons c cs =>
        have hc : c.isDigit = true := by
          have := natChars_digits n
          rw [hnc] at this
          exact this c (by simp)
        rw [List.dropWhile_cons_of_neg]
        simp only [decide_eq_true_eq]
        exact fun heq => absurd hc (by rw [heq]; decide)
    rw [hdrop]
    have hcanon : canonicalKey "Content-Length".data = "Content-Length" := by decide
    rw [hcanon]
  have hempty : ("Content-Length".data ++ ':' :: ' ' :: natChars n).isEmpty = false := by
    rw [hcons]; rfl
  rw [show f + 2 = (f + 1) + 1 from rfl]
  rw [readMIMEHeaderAux, h1]
  dsimp only
  rw [hempty]
  simp only [Bool.false_eq_true, if_false, hsplit]
  rw [readMIMEHeaderAux]
  rw [show takeLine ('\r' :: '\n' :: s) = some ([], s) by simp [takeLine]]
  simp

theorem headerChars_length_pos (n : Nat) : 1 ≤ (headerChars n).length := by
  simp [headerChars]

theorem readMIMEHeader_frame (n : Nat) (s : List Char) :
    readMIMEHeader (headerChars n ++ s) =
      some ([("Content-Length", String.mk (natChars n))], s) := by
  rw [readMIMEHeader]
  have h1 : 1 ≤ (headerChars n ++ s).length := by
    rw [List.length_append]
    have := headerChars_length_pos n
    omega
  rw [show (headerChars n ++ s).length + 1 = ((headerChars n ++ s).length - 1) + 2 by omega]
  exact readMIMEHeaderAux_frame _ n s

theorem headerGet_content_length (v : String) :
    headerGet [("Content-Length", v)] "Content-Length" = v := by
  rw [headerGet]
  rw [List.find?_cons_of_pos]
  rfl

theorem parseInt64String_natChars (n : Nat) :
    parseInt64String (String.mk (natChars n)) = some (n : Int) := by
  rw [parseInt64String]
  have hdata : (String.mk (natChars n)).data = natChars n := rfl
  rw [hdata]
  have h := parseIntChars_natChars n [] rfl
  rw [List.append_nil] at h
  rw [h]

/-- A well-formed frame followed by arbitrary bytes is read exactly. -/
theorem Read_frame (body rest : List Char) (req : Request)
    (hdec : decodeRequestBytes body = some req)
    (hver : req.IsJSONRPC = true) :
    Read (headerChars body.length ++ (body ++ rest)) = some (req, rest) := by
  rw [Read]
  rw [readMIMEHeader_frame body.length (body ++ rest)]
  dsimp only
  rw [headerGet_content_length, parseInt64String_natChars]
  dsimp only
  simp only [Int.toNat_ofNat]
  rw [List.take_left, List.drop_left, hdec]
  dsimp only
  rw [hver]
  simp

/-- C8: for a stream made of a well-formed frame — a `Content-Length`
header declaring exactly the body's length, the blank-line terminator, and a
body that decodes to a JSON-RPC request — followed by arbitrary further
bytes, `Read` consumes exactly the declared body: it returns the decoded
request and the stream positioned at the first byte after the body, so the
next `Read` starts at the next frame's header. -/
theorem c8_read_consumes_exact (body rest : List Char) (req : Request)
    (hdec : decodeRequestBytes body = some req)
    (hver : req.IsJSONRPC = true) :
    Read (headerChars body.length ++ (body ++ rest)) = some (req, rest) :=
  Read_frame body rest req hdec hver

/-- Witness for C8: a concrete frame followed by the byte `!` is read back
exactly, leaving `!` unconsumed. -/
theorem c8_read_consumes_exact_witness :
    Read (headerChars ("\x7b\"jsonrpc\":\"2.0\",\"id\":7,\"method\":\"x\"\x7d".data).length ++
        ("\x7b\"jsonrpc\":\"2.0\",\"id\":7,\"method\":\"x\"\x7d".data ++ ['!'])) =
      some ({ protocolVersion := "2.0", id := some (Json.num 7),
              method := "x", params := none }, ['!']) :=
  c8_read_consumes_exact _ ['!'] _ rfl rfl

/-! ## Serializer-parser round trip -/

theorem escapeChar_wf {c : Char} (h : wfChar c = true) : escapeChar c = [c] := by
  rw [wfChar, decide_eq_true_eq] at h
  obtain ⟨h1, h2, h3, h4, h5, h6⟩ := h
  have hn : c ≠ '\n' := fun hc => by subst hc; exact absurd h3 (by decide)
  have hr : c ≠ '\r' := fun hc => by subst hc; exact absurd h3 (by decide)
  have ht : c ≠ '\t' := fun hc => by subst hc; exact absurd h3 (by decide)
  rw [escapeChar, if_neg h1, if_neg h2, if_neg hn, if_neg hr, if_neg ht,
      if_neg (by omega), if_neg (fun hor => hor.elim h4 (fun hor2 => hor2.elim h5 h6))]

theorem escList_wf : ∀ (l : List Char), (∀ c ∈ l, wfChar c = true) → escList l = l := by
  intro l
  induction l with
  | nil => intro _; rfl
  | cons c l ih =>
    intro h
    rw [escList, escapeChar_wf (h c (by simp)), ih (fun x hx => h x (by simp [hx]))]
    rfl

theorem parseStringBody_append : ∀ (l rest : List Char), (∀ c ∈ l, wfChar c = true) →
    parseStringBody (l ++ '"' :: rest) = some (l, rest) := by
  intro l
  induction l with
  | nil =>
    intro rest _
    rw [List.nil_append, parseStringBody.eq_def]
    dsimp only
    rw [if_pos rfl]
  | cons c l ih =>
    intro rest h
    have hc := h c (by simp)
    rw [wfChar, decide_eq_true_eq] at hc
    simp only [List.cons_append]
    rw [parseStringBody.eq_def]
    dsimp only
    rw [if_neg hc.1, if_neg hc.2.1, ih rest (fun x hx => h x (by simp [hx]))]
    rfl

theorem skipWs_cons {c : Char} (h : isWsChar c = false) (l : List Char) :
    skipWs (c :: l) = c :: l := by
  simp [skipWs, List.dropWhile_cons, h]

theorem numHead_facts {c : Char} (h : c = '-' ∨ c.isDigit = true) :
    isWsChar c = false ∧ c ≠ 'n' ∧ c ≠ 't' ∧ c ≠ 'f' ∧ c ≠ '"' ∧ c ≠ '[' ∧
      c ≠ '\x7b' ∧ c ≠ ']' := by
  rcases h with h | h
  · subst h
    exact ⟨by decide, by decide, by decide, by decide, by decide, by decide, by decide, by decide⟩
  · exact ⟨isDigit_not_ws h, isDigit_ne_of h (by decide), isDigit_ne_of h (by decide),
      isDigit_ne_of h (by decide), isDigit_ne_of h (by decide), isDigit_ne_of h (by decide),
      isDigit_ne_of h (by decide), isDigit_ne_of h (by decide)⟩

theorem intChars_head (i : Int) : ∃ c cs, intChars i = c :: cs ∧ (c = '-' ∨ c.isDigit = true) := by
  rw [intChars]
  split
  · exact ⟨'-', _, rfl, Or.inl rfl⟩
  · obtain ⟨c, ds, hcds, hc⟩ := digitsBE_cons i.toNat
    exact ⟨c, ds, by rw [natChars_eq, hcds], Or.inr hc⟩

theorem intChars_ne_nil (i : Int) : intChars i ≠ [] := by
  obtain ⟨c, cs, hc, _⟩ := intChars_head i
  rw [hc]
  simp

theorem serialize_head (j : Json) :
    ∃ c cs, j.serialize = c :: cs ∧ isWsChar c = false ∧ c ≠ ']' := by
  cases j with
  | null => exact ⟨'n', _, rfl, by decide, by decide⟩
  | bool b => cases b with
    | false => exact ⟨'f', _, rfl, by decide, by decide⟩
    | true => exact ⟨'t', _, rfl, by decide, by decide⟩
  | num i =>
    obtain ⟨c, cs, hc, hcase⟩ := intChars_head i
    have hf := numHead_facts hcase
    exact ⟨c, cs, by rw [show (Json.num i).serialize = intChars i from rfl, hc],
      hf.1, hf.2.2.2.2.2.2.2⟩
  | str s => exact ⟨'"', _, rfl, by decide, by decide⟩
  | arr xs => exact ⟨'[', _, rfl, by decide, by decide⟩
  | obj fs => exact ⟨'\x7b', _, rfl, by decide, by decide⟩

theorem serTail_cons (y : Json) (ys : JsonList) :
    (JsonList.cons y ys).serTail = ',' :: (JsonList.cons y ys).serItems := rfl

theorem serTailF_cons (k : String) (v : Json) (fs : JsonFields) :
    (JsonFields.cons k v fs).serTail = ',' :: (JsonFields.cons k v fs).serFields := rfl

theorem size_pos (j : Json) : 1 ≤ j.size := by
  cases j <;> (simp only [Json.size]; omega)

theorem sizeL_pos (xs : JsonList) : 1 ≤ xs.sizeL := by
  cases xs <;> (simp only [JsonList.sizeL]; omega)

theorem sizeF_pos (fs : JsonFields) : 1 ≤ fs.sizeF := by
  cases fs <;> (simp only [JsonFields.sizeF]; omega)

theorem serializeString_length (s : String) : 2 ≤ (serializeString s).length := by
  rw [serializeString]
  simp

mutual
theorem size_le_len (j : Json) : j.size ≤ 2 * j.serialize.length := by
  cases j with
  | null => simp only [Json.size, Json.serialize, List.length_cons, List.length_nil]; omega
  | bool b =>
    cases b <;>
      (simp only [Json.size, Json.serialize, List.length_cons, List.length_nil]; omega)
  | num i =>
    have h : 1 ≤ (intChars i).length := List.length_pos.mpr (intChars_ne_nil i)
    simp only [Json.size, Json.serialize]
    omega
  | str s =>
    have h := serializeString_length s
    simp only [Json.size, Json.serialize]
    omega
  | arr xs =>
    have h := sizeL_le_len xs
    simp only [Json.size, Json.serialize, List.length_cons]
    omega
  | obj fs =>
    have h := sizeF_le_len fs
    simp only [Json.size, Json.serialize, List.length_cons]
    omega

theorem sizeL_le_len (xs : JsonList) : xs.sizeL ≤ 2 * xs.serItems.length := by
  cases xs with
  | nil => simp only [JsonList.sizeL, JsonList.serItems, List.length_cons, List.length_nil]; omega
  | cons x xs =>
    have hx := size_le_len x
    cases xs with
    | nil =>
      simp only [JsonList.sizeL, JsonList.serItems, JsonList.serTail, List.length_append,
        List.length_cons, List.length_nil]
      omega
    | cons y ys =>
      have ht := sizeL_le_len (JsonList.cons y ys)
      simp only [JsonList.sizeL] at ht ⊢
      simp only [JsonList.serItems, List.length_append]
      rw [serTail_cons]
      simp only [JsonList.serItems, List.length_cons, List.length_append] at ht ⊢
      omega

theorem sizeF_le_len (fs : JsonFields) : fs.sizeF ≤ 2 * fs.serFields.length := by
  cases fs with
  | nil =>
    simp only [JsonFields.sizeF, JsonFields.serFields, List.length_cons, List.length_nil]
    omega
  | cons k v fs =>
    have hv := size_le_len v
    have hk := serializeString_length k
    cases fs with
    | nil =>
      simp only [JsonFields.sizeF, JsonFields.serFields, JsonFields.serTail, List.length_append,
        List.length_cons, List.length_nil]
      omega
    | cons k2 v2 fs2 =>
      have ht := sizeF_le_len (JsonFields.cons k2 v2 fs2)
      simp only [JsonFields.sizeF] at ht ⊢
      simp only [JsonFields.serFields, List.length_append, List.length_cons]
      rw [serTailF_cons]
      simp only [JsonFields.serFields, List.length_cons, List.length_append] at ht ⊢
      omega
end

theorem serTail_noDigit (xs : JsonList) (rest : List Char) :
    noDigitHead (xs.serTail ++ rest) = true := by
  cases xs with
  | nil => rfl
  | cons y ys => rfl

theorem serTailF_noDigit (fs : JsonFields) (rest : List Char) :
    noDigitHead (fs.serTail ++ rest) = true := by
  cases fs with
  | nil => rfl
  | cons k v fs => rfl

mutual
theorem parseVal_ser : ∀ (j : Json), j.wf = true → ∀ (f : Nat) (rest : List Char),
    j.size ≤ f → noDigitHead rest = true →
    parseVal f (j.serialize ++ rest) = some (j, rest)
  | j, hwf, f, rest, hf, hrest => by
    obtain ⟨f', rfl⟩ : ∃ f', f = f' + 1 := ⟨f - 1, by have := size_pos j; omega⟩
    cases j with
    | null =>
      rw [show Json.null.serialize ++ rest = 'n' :: ('u' :: 'l' :: 'l' :: rest) from rfl]
      rw [parseVal.eq_def]
      dsimp only
      rw [skipWs_cons (by decide)]
      dsimp only
      rw [if_pos rfl]
      rfl
    | bool b =>
      cases b with
      | true =>
        rw [show (Json.bool true).serialize ++ rest = 't' :: ('r' :: 'u' :: 'e' :: rest) from rfl]
        rw [parseVal.eq_def]
        dsimp only
        rw [skipWs_cons (by decide)]
        dsimp only
        rw [if_neg (by decide), if_pos rfl]
        rfl
      | false =>
        rw [show (Json.bool false).serialize ++ rest =
            'f' :: ('a' :: 'l' :: 's' :: 'e' :: rest) from rfl]
        rw [parseVal.eq_def]
        dsimp only
        rw [skipWs_cons (by decide)]
        dsimp only
        rw [if_neg (by decide), if_neg (by decide), if_pos rfl]
        rfl
    | num i =>
      obtain ⟨c, cs, hc, hcase⟩ := intChars_head i
      have hnum := numHead_facts hcase
      rw [show (Json.num i).serialize = intChars i from rfl, hc]
      simp only [List.cons_append]
      rw [parseVal.eq_def]
      dsimp only
      rw [skipWs_cons hnum.1]
      dsimp only
      rw [if_neg hnum.2.1, if_neg hnum.2.2.1, if_neg hnum.2.2.2.1, if_neg hnum.2.2.2.2.1,
          if_neg hnum.2.2.2.2.2.1, if_neg hnum.2.2.2.2.2.2.1]
      rw [show c :: (cs ++ rest) = (c :: cs) ++ rest from rfl, ← hc]
      rw [parseIntChars_intChars i rest hrest]
      rfl
    | str s =>
      have hwfs : ∀ c ∈ s.data, wfChar c = true := by
        rw [show Json.wf (Json.str s) = wfString s from rfl, wfString] at hwf
        exact fun c hc => List.all_eq_true.mp hwf c hc
      rw [show (Json.str s).serialize ++ rest = '"' :: (escList s.data ++ ('"' :: rest)) from by
        rw [show (Json.str s).serialize = '"' :: (escList s.data ++ ['"']) from rfl]
        simp [List.append_assoc]]
      rw [escList_wf s.data hwfs]
      rw [parseVal.eq_def]
      dsimp only
      rw [skipWs_cons (by decide)]
      dsimp only
      rw [if_neg (by decide), if_neg (by decide), if_neg (by decide), if_pos rfl]
      rw [parseStringBody_append s.data rest hwfs]
      rfl
    | arr xs =>
      have hwfl : xs.wfL = true := by
        rw [show Json.wf (Json.arr xs) = xs.wfL from rfl] at hwf
        exact hwf
      have hsz : xs.sizeL ≤ f' := by
        rw [show (Json.arr xs).size = xs.sizeL + 1 from rfl] at hf
        omega
      rw [show (Json.arr xs).serialize ++ rest = '[' :: (xs.serItems ++ rest) from rfl]
      rw [parseVal.eq_def]
      dsimp only
      rw [skipWs_cons (by decide)]
      dsimp only
      rw [if_neg (by decide), if_neg (by decide), if_neg (by decide), if_neg (by decide),
          if_pos rfl]
      rw [parseItems_ser xs hwfl f' rest hsz]
      rfl
    | obj fs =>
      have hwff : fs.wfF = true := by
        rw [show Json.wf (Json.obj fs) = fs.wfF from rfl] at hwf
        exact hwf
      have hsz : fs.sizeF ≤ f' := by
        rw [show (Json.obj fs).size = fs.sizeF + 1 from rfl] at hf
        omega
      rw [show (Json.obj fs).serialize ++ rest = '\x7b' :: (fs.serFields ++ rest) from rfl]
      rw [parseVal.eq_def]
      dsimp only
      rw [skipWs_cons (by decide)]
      dsimp only
      rw [if_neg (by decide), if_neg (by decide), if_neg (by decide), if_neg (by decide),
          if_neg (by decide), if_pos rfl]
      rw [parseFields_ser fs hwff f' rest hsz]
      rfl

theorem parseItems_ser : ∀ (xs : JsonList), xs.wfL = true → ∀ (f : Nat) (rest : List Char),
    xs.sizeL ≤ f → parseItems f (xs.serItems ++ rest) = some (xs, rest)
  | xs, hwf, f, rest, hf => by
    obtain ⟨f', rfl⟩ : ∃ f', f = f' + 1 := ⟨f - 1, by have := sizeL_pos xs; omega⟩
    cases xs with
    | nil =>
      rw [show JsonList.nil.serItems ++ rest = ']' :: rest from rfl]
      rw [parseItems.eq_def]
      dsimp only
      rw [skipWs_cons (by decide)]
      dsimp only
      rw [if_pos rfl]
    | cons x xs =>
      have hand : (x.wf && xs.wfL) = true := by
        rw [show (JsonList.cons x xs).wfL = (x.wf && xs.wfL) from rfl] at hwf
        exact hwf
      rw [Bool.and_eq_true] at hand
      obtain ⟨hwfx, hwfxs⟩ := hand
      have hfsz : x.size + xs.sizeL + 1 ≤ f' + 1 := by
        rw [show (JsonList.cons x xs).sizeL = x.size + xs.sizeL + 1 from rfl] at hf
        exact hf
      obtain ⟨c, cs, hc, hws, hne⟩ := serialize_head x
      rw [show (JsonList.cons x xs).serItems ++ rest =
          x.serialize ++ (xs.serTail ++ rest) from by
        rw [show (JsonList.cons x xs).serItems = x.serialize ++ xs.serTail from rfl,
            List.append_assoc]]
      rw [parseItems.eq_def]
      dsimp only
      rw [hc]
      simp only [List.cons_append]
      rw [skipWs_cons hws]
      dsimp only
      rw [if_neg hne]
      rw [show c :: (cs ++ (xs.serTail ++ rest)) = (c :: cs) ++ (xs.serTail ++ rest) from rfl,
          ← hc]
      rw [parseVal_ser x hwfx f' (xs.serTail ++ rest) (by have := sizeL_pos xs; omega)
          (serTail_noDigit xs rest)]
      dsimp only
      cases xs with
      | nil =>
        rw [show JsonList.nil.serTail ++ rest = ']' :: rest from rfl]
        rw [skipWs_cons (by decide)]
        dsimp only
        rw [if_neg (by decide), if_pos rfl]
      | cons y ys =>
        rw [serTail_cons, List.cons_append]
        rw [skipWs_cons (by decide)]
        dsimp only
        rw [if_pos rfl]
        rw [parseItems_ser (JsonList.cons y ys) hwfxs f' rest (by have := size_pos x; omega)]

theorem parseFields_ser : ∀ (fs : JsonFields), fs.wfF = true → ∀ (f : Nat) (rest : List Char),
    fs.sizeF ≤ f → parseFields f (fs.serFields ++ rest) = some (fs, rest)
  | fs, hwf, f, rest, hf => by
    obtain ⟨f', rfl⟩ : ∃ f', f = f' + 1 := ⟨f - 1, by have := sizeF_pos fs; omega⟩
    cases fs with
    | nil =>
      rw [show JsonFields.nil.serFields ++ rest = '\x7d' :: rest from rfl]
      rw [parseFields.eq_def]
      dsimp only
      rw [skipWs_cons (by decide)]
      dsimp only
      rw [if_pos rfl]
    | cons k v fs =>
      have hand : (wfString k && v.wf && fs.wfF) = true := by
        rw [show (JsonFields.cons k v fs).wfF = (wfString k && v.wf && fs.wfF) from rfl] at hwf
        exact hwf
      rw [Bool.and_eq_true, Bool.and_eq_true] at hand
      obtain ⟨⟨hwfk, hwfv⟩, hwffs⟩ := hand
      have hks : ∀ c ∈ k.data, wfChar c = true := by
        rw [wfString] at hwfk
        exact fun c hc => List.all_eq_true.mp hwfk c hc
      have hfsz : v.size + fs.sizeF + 1 ≤ f' + 1 := by
        rw [show (JsonFields.cons k v fs).sizeF = v.size + fs.sizeF + 1 from rfl] at hf
        exact hf
      rw [show (JsonFields.cons k v fs).serFields ++ rest =
          '"' :: (k.data ++ ('"' :: (':' :: (v.serialize ++ (fs.serTail ++ rest))))) from by
        rw [show (JsonFields.cons k v fs).serFields =
            serializeString k ++ ':' :: (v.serialize ++ fs.serTail) from rfl,
            serializeString, escList_wf k.data hks]
        simp [List.append_assoc]]
      rw [parseFields.eq_def]
      dsimp only
      rw [skipWs_cons (by decide)]
      dsimp only
      rw [if_neg (by decide), if_pos rfl]
      rw [parseStringBody_append k.data _ hks]
      dsimp only
      rw [skipWs_cons (by decide)]
      dsimp only
      rw [if_pos rfl]
      rw [parseVal_ser v hwfv f' (fs.serTail ++ rest) (by have := sizeF_pos fs; omega)
          (serTailF_noDigit fs rest)]
      dsimp only
      cases fs with
      | nil =>
        rw [show JsonFields.nil.serTail ++ rest = '\x7d' :: rest from rfl]
        rw [skipWs_cons (by decide)]
        dsimp only
        rw [if_neg (by decide), if_pos rfl]
      | cons k2 v2 fs2 =>
        rw [serTailF_cons, List.cons_append]
        rw [skipWs_cons (by decide)]
        dsimp only
        rw [if_pos rfl]
        rw [parseFields_ser (JsonFields.cons k2 v2 fs2) hwffs f' rest
            (by have := size_pos v; omega)]
end

/-- Decoding the marshalled bytes of a `Response` as a `Request` recovers
exactly the identifier and protocol version; the result and error fields are
not part of the `Request` shape and are dropped. -/
theorem decode_jsonOfResponse (r : Response)
    (hver : r.protocolVersion = "2.0")
    (hwf : (jsonOfResponse r).wf = true)
    (hid : r.id ≠ some Json.null) :
    decodeRequestBytes (jsonOfResponse r).serialize =
      some { protocolVersion := "2.0", id := r.id, method := "", params := none } := by
  rw [decodeRequestBytes]
  have hparse := parseVal_ser (jsonOfResponse r) hwf
      (2 * (jsonOfResponse r).serialize.length + 2) []
      (le_trans (size_le_len _) (by omega)) rfl
  rw [List.append_nil] at hparse
  rw [hparse]
  obtain ⟨pv, id, result, err⟩ := r
  simp only at hver
  subst hver
  cases id with
  | none => rfl
  | some j =>
    cases j with
    | null => exact absurd rfl hid
    | bool b => rfl
    | num n => rfl
    | str s => rfl
    | arr xs => rfl
    | obj fs => rfl

/-- C7 (amended): encoding a `Response` with `Write` and decoding the bytes
with `Read` yields a `Request` — not a `Response` — that agrees with the
original in identifier and protocol version; the result-or-error shape and
payload are discarded by the decode (stated for responses whose strings
need no JSON escaping and whose id is not the raw JSON null). -/
theorem c7_write_read_preserves_id (r : Response) (rest : List Char)
    (hver : r.protocolVersion = "2.0")
    (hwf : (jsonOfResponse r).wf = true)
    (hid : r.id ≠ some Json.null) :
    Read (writeResponse r ++ rest) =
      some ({ protocolVersion := "2.0", id := r.id, method := "", params := none }, rest) := by
  rw [writeResponse, Write, List.append_assoc]
  exact Read_frame _ rest _ (decode_jsonOfResponse r hver hwf hid) rfl

/-- Witness for C7: a concrete error-carrying response round-trips to a
request with the same id, with trailing bytes untouched. -/
theorem c7_write_read_preserves_id_witness :
    Read (writeResponse { protocolVersion := "2.0", id := some (Json.num 3),
                          result := Json.bool true, error := some ErrInternal } ++ ['Z']) =
      some ({ protocolVersion := "2.0", id := some (Json.num 3),
              method := "", params := none }, ['Z']) :=
  c7_write_read_preserves_id _ ['Z'] rfl rfl
    (fun h => by injection h with h2; exact Json.noConfusion h2)

end JsonRpc
